import Mathlib

/-!
Verification of the deduplication pipeline of
`slurm-docker-cluster/app/datatrove_pipeline.py`.

The Python source is shallowly embedded below: pure fragments become Lean
functions, the streaming pipeline steps become functions over lists of
documents, and fallible operations (Python `KeyError` / `IndexError`)
return `Option`.
-/

/-- A metadata value: the pipeline stores both integers (cluster sizes,
weights, token counts) and strings (urls, language tags) in a document's
metadata dict. -/
inductive MetaVal
  | nat : Nat → MetaVal
  | str : String → MetaVal
deriving DecidableEq

/-- A datatrove `Document`: stable identifier, text content and a metadata
dict, embedded as an insertion-ordered association list. -/
structure Doc where
  id : Nat
  text : String
  metadata : List (String × MetaVal)
deriving DecidableEq

/-- Python dict lookup `m[k]` on the metadata dict, `none` on a missing key
(`KeyError`). -/
def lookupMeta : List (String × MetaVal) → String → Option MetaVal
  | [], _ => none
  | (k0, v) :: rest, k => if k0 = k then some v else lookupMeta rest k

/-- Python dict assignment `m[k] = v`: replaces the value in place when the
key is present (insertion order kept), appends otherwise. -/
def setMeta : List (String × MetaVal) → String → MetaVal → List (String × MetaVal)
  | [], k, v => [(k, v)]
  | (k0, v0) :: rest, k, v =>
      if k0 = k then (k, v) :: rest else (k0, v0) :: setMeta rest k v

/-- Insert into a sorted list, keeping it sorted (helper for `sortNat`). -/
def insertSorted (x : Nat) : List Nat → List Nat
  | [] => [x]
  | y :: ys => if x ≤ y then x :: y :: ys else y :: insertSorted x ys

/-- Embeds Python `sorted` on a list of naturals (insertion sort). -/
def sortNat (l : List Nat) : List Nat := l.foldr insertSorted []

/-- The `upsampling_weights` dict literal of `Rehydrater.run`:
`{1: 1, 2: 2, 3: 3, 5: 5, 100: 8, 1000: 1}`. -/
def upsamplingWeights : List (Nat × Nat) :=
  [(1, 1), (2, 2), (3, 3), (5, 5), (100, 8), (1000, 1)]

/-- `limits = sorted(upsampling_weights.keys())`. -/
def limits : List Nat := sortNat (upsamplingWeights.map Prod.fst)

/-- Embeds `bisect.bisect_right(l, x)` for a sorted list `l`: the insertion
point is the length of the prefix of elements `≤ x`. -/
def bisectRight (l : List Nat) (x : Nat) : Nat :=
  (l.takeWhile (fun t => t ≤ x)).length

/-- Embeds Python list subscription `l[i]`: a negative index counts from the
end of the list; out-of-range access is `none` (`IndexError`). -/
def pyGet (l : List Nat) (i : Int) : Option Nat :=
  if 0 ≤ i then l.get? i.toNat
  else if -i ≤ (l.length : Int) then l.get? (l.length - (-i).toNat)
  else none

/-- The weight computation of `Rehydrater.run`:
`upsampling_weights[limits[bisect.bisect_right(limits, k) - 1]]`.
`none` would be a Python `IndexError`/`KeyError`. -/
def rehydraterWeight? (k : Nat) : Option Nat :=
  (pyGet limits ((bisectRight limits k : Int) - 1)).bind
    fun t => upsamplingWeights.lookup t

/-- The per-document body of `Rehydrater.run`: read
`doc.metadata["minhash_cluster_size"]`, compute the weight, store it under
`doc.metadata["upsampling_weight"]` and yield the document. A missing or
non-integer cluster size would raise in Python, hence `none`. -/
def rehydraterStep (doc : Doc) : Option Doc :=
  match lookupMeta doc.metadata "minhash_cluster_size" with
  | some (MetaVal.nat k) =>
      (rehydraterWeight? k).map fun w =>
        { doc with metadata := setMeta doc.metadata "upsampling_weight" (MetaVal.nat w) }
  | _ => none

/-- `Rehydrater.run` over a whole document stream: each document is yielded
exactly once, annotated; a raising document aborts the generator (`none`).
The commented-out repetition loop of the source is not part of the step. -/
def rehydraterRun : List Doc → Option (List Doc)
  | [] => some []
  | d :: ds =>
      match rehydraterStep d, rehydraterRun ds with
      | some d', some ds' => some (d' :: ds')
      | _, _ => none


lemma limits_eq : limits = [1, 2, 3, 5, 100, 1000] := by rfl

lemma lookupMeta_setMeta_eq (m : List (String × MetaVal)) (k : String) (v : MetaVal) :
    lookupMeta (setMeta m k v) k = some v := by
  induction m with
  | nil => simp [setMeta, lookupMeta]
  | cons p rest ih =>
    obtain ⟨k0, v0⟩ := p
    by_cases h : k0 = k
    · subst h
      simp [setMeta, lookupMeta]
    · simp [setMeta, lookupMeta, h, ih]

lemma lookupMeta_setMeta_ne (m : List (String × MetaVal)) (k k' : String) (v : MetaVal)
    (h : k' ≠ k) :
    lookupMeta (setMeta m k v) k' = lookupMeta m k' := by
  induction m with
  | nil => simp [setMeta, lookupMeta, Ne.symm h]
  | cons p rest ih =>
    obtain ⟨k0, v0⟩ := p
    by_cases h0 : k0 = k
    · subst h0
      simp [setMeta, lookupMeta, Ne.symm h]
    · by_cases h1 : k0 = k'
      · subst h1
        simp [setMeta, lookupMeta, h0]
      · simp [setMeta, lookupMeta, h0, h1, ih]

lemma setMeta_setMeta (m : List (String × MetaVal)) (k : String) (v v' : MetaVal) :
    setMeta (setMeta m k v) k v' = setMeta m k v' := by
  induction m with
  | nil => simp [setMeta]
  | cons p rest ih =>
    obtain ⟨k0, v0⟩ := p
    by_cases h : k0 = k
    · subst h
      simp [setMeta]
    · simp [setMeta, h, ih]

lemma rehydraterStep_eq (doc : Doc) (k w : Nat)
    (hmeta : lookupMeta doc.metadata "minhash_cluster_size" = some (MetaVal.nat k))
    (hw : rehydraterWeight? k = some w) :
    rehydraterStep doc =
      some { doc with metadata := setMeta doc.metadata "upsampling_weight" (MetaVal.nat w) } := by
  unfold rehydraterStep
  rw [hmeta]
  show Option.map _ (rehydraterWeight? k) = _
  rw [hw]
  rfl

lemma rehydraterRun_nil : rehydraterRun [] = some [] := rfl

lemma rehydraterRun_cons (d : Doc) (ds : List Doc) :
    rehydraterRun (d :: ds) =
      match rehydraterStep d, rehydraterRun ds with
      | some d', some ds' => some (d' :: ds')
      | _, _ => none := rfl

lemma bisectRight_limits (k : Nat) :
    bisectRight limits k =
      if k < 1 then 0 else if k < 2 then 1 else if k < 3 then 2
      else if k < 5 then 3 else if k < 100 then 4 else if k < 1000 then 5 else 6 := by
  by_cases h1 : k < 1
  · have d1 : decide (1 ≤ k) = false := decide_eq_false (by omega)
    simp [bisectRight, limits_eq, List.takeWhile, d1, h1]
  · by_cases h2 : k < 2
    · have d1 : decide (1 ≤ k) = true := decide_eq_true (by omega)
      have d2 : decide (2 ≤ k) = false := decide_eq_false (by omega)
      simp [bisectRight, limits_eq, List.takeWhile, d1, d2, h1, h2]
    · by_cases h3 : k < 3
      · have d2 : decide (2 ≤ k) = true := decide_eq_true (by omega)
        have d3 : decide (3 ≤ k) = false := decide_eq_false (by omega)
        have d1 : decide (1 ≤ k) = true := decide_eq_true (by omega)
        simp [bisectRight, limits_eq, List.takeWhile, d1, d2, d3, h1, h2, h3]
      · by_cases h5 : k < 5
        · have d1 : decide (1 ≤ k) = true := decide_eq_true (by omega)
          have d2 : decide (2 ≤ k) = true := decide_eq_true (by omega)
          have d3 : decide (3 ≤ k) = true := decide_eq_true (by omega)
          have d5 : decide (5 ≤ k) = false := decide_eq_false (by omega)
          simp [bisectRight, limits_eq, List.takeWhile, d1, d2, d3, d5, h1, h2, h3, h5]
        · by_cases h100 : k < 100
          · have d1 : decide (1 ≤ k) = true := decide_eq_true (by omega)
            have d2 : decide (2 ≤ k) = true := decide_eq_true (by omega)
            have d3 : decide (3 ≤ k) = true := decide_eq_true (by omega)
            have d5 : decide (5 ≤ k) = true := decide_eq_true (by omega)
            have d100 : decide (100 ≤ k) = false := decide_eq_false (by omega)
            simp [bisectRight, limits_eq, List.takeWhile, d1, d2, d3, d5, d100,
              h1, h2, h3, h5, h100]
          · by_cases h1000 : k < 1000
            · have d1 : decide (1 ≤ k) = true := decide_eq_true (by omega)
              have d2 : decide (2 ≤ k) = true := decide_eq_true (by omega)
              have d3 : decide (3 ≤ k) = true := decide_eq_true (by omega)
              have d5 : decide (5 ≤ k) = true := decide_eq_true (by omega)
              have d100 : decide (100 ≤ k) = true := decide_eq_true (by omega)
              have d1000 : decide (1000 ≤ k) = false := decide_eq_false (by omega)
              simp [bisectRight, limits_eq, List.takeWhile, d1, d2, d3, d5, d100, d1000,
                h1, h2, h3, h5, h100, h1000]
            · have d1 : decide (1 ≤ k) = true := decide_eq_true (by omega)
              have d2 : decide (2 ≤ k) = true := decide_eq_true (by omega)
              have d3 : decide (3 ≤ k) = true := decide_eq_true (by omega)
              have d5 : decide (5 ≤ k) = true := decide_eq_true (by omega)
              have d100 : decide (100 ≤ k) = true := decide_eq_true (by omega)
              have d1000 : decide (1000 ≤ k) = true := decide_eq_true (by omega)
              simp [bisectRight, limits_eq, List.takeWhile, d1, d2, d3, d5, d100, d1000,
                h1, h2, h3, h5, h100, h1000]

lemma rehydraterWeight_eval (k : Nat) :
    rehydraterWeight? k =
      some (if k < 2 then 1 else if k < 3 then 2 else if k < 5 then 3
        else if k < 100 then 5 else if k < 1000 then 8 else 1) := by
  have hb := bisectRight_limits k
  by_cases h1 : k < 1
  · rw [if_pos h1] at hb
    rw [rehydraterWeight?, hb, if_pos (by omega : k < 2)]
    rfl
  · by_cases h2 : k < 2
    · rw [if_neg h1, if_pos h2] at hb
      rw [rehydraterWeight?, hb, if_pos h2]
      rfl
    · by_cases h3 : k < 3
      · rw [if_neg h1, if_neg h2, if_pos h3] at hb
        rw [rehydraterWeight?, hb, if_neg h2, if_pos h3]
        rfl
      · by_cases h5 : k < 5
        · rw [if_neg h1, if_neg h2, if_neg h3, if_pos h5] at hb
          rw [rehydraterWeight?, hb, if_neg h2, if_neg h3, if_pos h5]
          rfl
        · by_cases h100 : k < 100
          · rw [if_neg h1, if_neg h2, if_neg h3, if_neg h5, if_pos h100] at hb
            rw [rehydraterWeight?, hb, if_neg h2, if_neg h3, if_neg h5, if_pos h100]
            rfl
          · by_cases h1000 : k < 1000
            · rw [if_neg h1, if_neg h2, if_neg h3, if_neg h5, if_neg h100,
                if_pos h1000] at hb
              rw [rehydraterWeight?, hb, if_neg h2, if_neg h3, if_neg h5, if_neg h100,
                if_pos h1000]
              rfl
            · rw [if_neg h1, if_neg h2, if_neg h3, if_neg h5, if_neg h100,
                if_neg h1000] at hb
              rw [rehydraterWeight?, hb, if_neg h2, if_neg h3, if_neg h5, if_neg h100,
                if_neg h1000]
              rfl


lemma rehydraterWeight_largest (k : Nat) (h1 : 1 ≤ k) :
    ∃ t w, t ∈ limits ∧ t ≤ k ∧ (∀ u ∈ limits, u ≤ k → u ≤ t) ∧
      upsamplingWeights.lookup t = some w ∧ rehydraterWeight? k = some w := by
  have he := rehydraterWeight_eval k
  by_cases h2 : k < 2
  · rw [if_pos h2] at he
    refine ⟨1, 1, by simp [limits_eq], by omega, ?_, by rfl, he⟩
    intro u hu huk
    simp only [limits_eq] at hu
    fin_cases hu <;> omega
  · by_cases h3 : k < 3
    · rw [if_neg h2, if_pos h3] at he
      refine ⟨2, 2, by simp [limits_eq], by omega, ?_, by rfl, he⟩
      intro u hu huk
      simp only [limits_eq] at hu
      fin_cases hu <;> omega
    · by_cases h5 : k < 5
      · rw [if_neg h2, if_neg h3, if_pos h5] at he
        refine ⟨3, 3, by simp [limits_eq], by omega, ?_, by rfl, he⟩
        intro u hu huk
        simp only [limits_eq] at hu
        fin_cases hu <;> omega
      · by_cases h100 : k < 100
        · rw [if_neg h2, if_neg h3, if_neg h5, if_pos h100] at he
          refine ⟨5, 5, by simp [limits_eq], by omega, ?_, by rfl, he⟩
          intro u hu huk
          simp only [limits_eq] at hu
          fin_cases hu <;> omega
        · by_cases h1000 : k < 1000
          · rw [if_neg h2, if_neg h3, if_neg h5, if_neg h100, if_pos h1000] at he
            refine ⟨100, 8, by simp [limits_eq], by omega, ?_, by rfl, he⟩
            intro u hu huk
            simp only [limits_eq] at hu
            fin_cases hu <;> omega
          · rw [if_neg h2, if_neg h3, if_neg h5, if_neg h100, if_neg h1000] at he
            refine ⟨1000, 1, by simp [limits_eq], by omega, ?_, by rfl, he⟩
            intro u hu huk
            simp only [limits_eq] at hu
            fin_cases hu <;> omega

lemma rehydraterStep_idem (d d' : Doc) (h : rehydraterStep d = some d') :
    rehydraterStep d' = some d' := by
  unfold rehydraterStep at h
  cases hm : lookupMeta d.metadata "minhash_cluster_size" with
  | none =>
    rw [hm] at h
    exact Option.noConfusion h
  | some v =>
    rw [hm] at h
    cases v with
    | str s => exact Option.noConfusion h
    | nat k =>
      cases hw : rehydraterWeight? k with
      | none =>
        have h' : Option.map
            (fun w => { d with metadata := setMeta d.metadata "upsampling_weight" (MetaVal.nat w) })
            (rehydraterWeight? k) = some d' := h
        rw [hw] at h'
        exact Option.noConfusion h'
      | some w =>
        have h' : Option.map
            (fun w => { d with metadata := setMeta d.metadata "upsampling_weight" (MetaVal.nat w) })
            (rehydraterWeight? k) = some d' := h
        rw [hw] at h'
        have hd' : { d with metadata := setMeta d.metadata "upsampling_weight" (MetaVal.nat w) } = d' :=
          Option.some.inj h'
        subst hd'
        have hne : ("minhash_cluster_size" : String) ≠ "upsampling_weight" := by decide
        have hm' : lookupMeta (setMeta d.metadata "upsampling_weight" (MetaVal.nat w))
            "minhash_cluster_size" = some (MetaVal.nat k) := by
          rw [lookupMeta_setMeta_ne _ _ _ _ hne]
          exact hm
        rw [rehydraterStep_eq _ k w hm' hw]
        simp [setMeta_setMeta]

/-- The per-document frame property of the Rehydrater: identifier, text and
every metadata field other than `upsampling_weight` are unchanged, and
`upsampling_weight` holds the weight computed from `minhash_cluster_size`. -/
def FramePreserved (d d' : Doc) : Prop :=
  d'.id = d.id ∧ d'.text = d.text ∧
  (∀ key, key ≠ "upsampling_weight" →
    lookupMeta d'.metadata key = lookupMeta d.metadata key) ∧
  ∃ k w, lookupMeta d.metadata "minhash_cluster_size" = some (MetaVal.nat k) ∧
    rehydraterWeight? k = some w ∧
    lookupMeta d'.metadata "upsampling_weight" = some (MetaVal.nat w)

lemma rehydraterStep_frame (d d' : Doc) (h : rehydraterStep d = some d') :
    FramePreserved d d' := by
  unfold rehydraterStep at h
  cases hm : lookupMeta d.metadata "minhash_cluster_size" with
  | none =>
    rw [hm] at h
    exact Option.noConfusion h
  | some v =>
    rw [hm] at h
    cases v with
    | str s => exact Option.noConfusion h
    | nat k =>
      cases hw : rehydraterWeight? k with
      | none =>
        have h' : Option.map
            (fun w => { d with metadata := setMeta d.metadata "upsampling_weight" (MetaVal.nat w) })
            (rehydraterWeight? k) = some d' := h
        rw [hw] at h'
        exact Option.noConfusion h'
      | some w =>
        have h' : Option.map
            (fun w => { d with metadata := setMeta d.metadata "upsampling_weight" (MetaVal.nat w) })
            (rehydraterWeight? k) = some d' := h
        rw [hw] at h'
        have hd' : { d with metadata := setMeta d.metadata "upsampling_weight" (MetaVal.nat w) } = d' :=
          Option.some.inj h'
        subst hd'
        refine ⟨rfl, rfl, ?_, k, w, hm, hw, ?_⟩
        · intro key hkey
          exact lookupMeta_setMeta_ne _ _ _ _ hkey
        · exact lookupMeta_setMeta_eq _ _ _

/-- Concrete documents used to instantiate the theorems below. -/
def docA : Doc := ⟨1, "alpha", [("minhash_cluster_size", MetaVal.nat 4)]⟩

def rehydA : Doc :=
  ⟨1, "alpha", [("minhash_cluster_size", MetaVal.nat 4), ("upsampling_weight", MetaVal.nat 3)]⟩

def docB : Doc := ⟨2, "beta", [("minhash_cluster_size", MetaVal.nat 5)]⟩

def rehydB : Doc :=
  ⟨2, "beta", [("minhash_cluster_size", MetaVal.nat 5), ("upsampling_weight", MetaVal.nat 5)]⟩

def docZ : Doc := ⟨7, "zeta", [("minhash_cluster_size", MetaVal.nat 0)]⟩

/-- C1: for every document carrying `minhash_cluster_size` k (k ≥ 1), the
Rehydrater stores under `upsampling_weight` the weight mapped by the table
`{1:1, 2:2, 3:3, 5:5, 100:8, 1000:1}` from the largest threshold `t ≤ k`;
in particular k = 4 yields weight 3, k = 1000 yields weight 1 and k = 1500
yields weight 1. -/
theorem rehydrater_weight_table (doc : Doc) (k : Nat)
    (hmeta : lookupMeta doc.metadata "minhash_cluster_size" = some (MetaVal.nat k))
    (hk : 1 ≤ k) :
    (∃ t w d', t ∈ limits ∧ t ≤ k ∧ (∀ u ∈ limits, u ≤ k → u ≤ t) ∧
      upsamplingWeights.lookup t = some w ∧
      rehydraterStep doc = some d' ∧
      lookupMeta d'.metadata "upsampling_weight" = some (MetaVal.nat w)) ∧
    rehydraterWeight? 4 = some 3 ∧ rehydraterWeight? 1000 = some 1 ∧
    rehydraterWeight? 1500 = some 1 := by
  obtain ⟨t, w, htl, htk, hmax, hlook, hw⟩ := rehydraterWeight_largest k hk
  refine ⟨⟨t, w, _, htl, htk, hmax, hlook, rehydraterStep_eq doc k w hmeta hw, ?_⟩,
    by rfl, by rfl, by rfl⟩
  exact lookupMeta_setMeta_eq _ _ _

/-- Witness for C1 at a document of cluster size 4. -/
theorem rehydrater_weight_table_witness :
    (∃ t w d', t ∈ limits ∧ t ≤ 4 ∧ (∀ u ∈ limits, u ≤ 4 → u ≤ t) ∧
      upsamplingWeights.lookup t = some w ∧
      rehydraterStep docA = some d' ∧
      lookupMeta d'.metadata "upsampling_weight" = some (MetaVal.nat w)) ∧
    rehydraterWeight? 4 = some 3 ∧ rehydraterWeight? 1000 = some 1 ∧
    rehydraterWeight? 1500 = some 1 :=
  rehydrater_weight_table docA 4 (by rfl) (by decide)

/-- C3: running the Rehydrater again on a stream it has already rehydrated,
with the same threshold table, reproduces the very same annotated stream,
so every document keeps the identical `upsampling_weight`. -/
theorem rehydrater_idempotent (docs out : List Doc) (h : rehydraterRun docs = some out) :
    rehydraterRun out = some out := by
  induction docs generalizing out with
  | nil =>
    rw [rehydraterRun_nil] at h
    have h' := Option.some.inj h
    subst h'
    rfl
  | cons d ds ih =>
    rw [rehydraterRun_cons] at h
    cases hd : rehydraterStep d with
    | none =>
      rw [hd] at h
      exact Option.noConfusion h
    | some d' =>
      rw [hd] at h
      cases hds : rehydraterRun ds with
      | none =>
        rw [hds] at h
        exact Option.noConfusion h
      | some out' =>
        rw [hds] at h
        have h' : d' :: out' = out := Option.some.inj h
        subst h'
        rw [rehydraterRun_cons, rehydraterStep_idem d d' hd, ih out' hds]

/-- Witness for C3: re-running on the already-annotated stream of `docA`. -/
theorem rehydrater_idempotent_witness : rehydraterRun [rehydA] = some [rehydA] :=
  rehydrater_idempotent [docA] [rehydA] (by rfl)

/-- C5: the only change the Rehydrater makes to a document is the
`upsampling_weight` metadata entry: id, text and every other metadata field
are unchanged, and the output stream is the input stream in order, one
output per input. -/
theorem rehydrater_frame (docs out : List Doc) (h : rehydraterRun docs = some out) :
    out.length = docs.length ∧ List.Forall₂ FramePreserved docs out := by
  induction docs generalizing out with
  | nil =>
    rw [rehydraterRun_nil] at h
    have h' := Option.some.inj h
    subst h'
    exact ⟨rfl, List.Forall₂.nil⟩
  | cons d ds ih =>
    rw [rehydraterRun_cons] at h
    cases hd : rehydraterStep d with
    | none =>
      rw [hd] at h
      exact Option.noConfusion h
    | some d' =>
      rw [hd] at h
      cases hds : rehydraterRun ds with
      | none =>
        rw [hds] at h
        exact Option.noConfusion h
      | some out' =>
        rw [hds] at h
        have h' : d' :: out' = out := Option.some.inj h
        subst h'
        obtain ⟨hlen, hfa⟩ := ih out' hds
        exact ⟨by simp [hlen], List.Forall₂.cons (rehydraterStep_frame d d' hd) hfa⟩

/-- Witness for C5 on the singleton stream `[docA]`. -/
theorem rehydrater_frame_witness :
    [rehydA].length = [docA].length ∧ List.Forall₂ FramePreserved [docA] [rehydA] :=
  rehydrater_frame [docA] [rehydA] (by rfl)

/-- C6 counterexample: a document in a cluster of size 5 has weight 5 yet is
emitted exactly once; the Rehydrater of the source has no duplication
toggle (the repetition loop is commented out), so no configuration makes it
emit a record `weight` times. -/
theorem rehydrater_no_toggle_cex :
    rehydraterWeight? 5 = some 5 ∧
    (rehydraterRun [docB]).map List.length = some 1 ∧
    (rehydraterRun [docB]).map List.length ≠ some 5 := by
  refine ⟨by rfl, by rfl, by decide⟩

/-- C6 amended: the Rehydrater always annotates the weight and emits each
document exactly once; literal duplication exists only as commented-out
code, with no configuration toggle. -/
theorem rehydrater_emits_once (docs out : List Doc) (h : rehydraterRun docs = some out) :
    out.length = docs.length := by
  induction docs generalizing out with
  | nil =>
    rw [rehydraterRun_nil] at h
    have h' := Option.some.inj h
    subst h'
    rfl
  | cons d ds ih =>
    rw [rehydraterRun_cons] at h
    cases hd : rehydraterStep d with
    | none =>
      rw [hd] at h
      exact Option.noConfusion h
    | some d' =>
      rw [hd] at h
      cases hds : rehydraterRun ds with
      | none =>
        rw [hds] at h
        exact Option.noConfusion h
      | some out' =>
        rw [hds] at h
        have h' : d' :: out' = out := Option.some.inj h
        subst h'
        simp [ih out' hds]

/-- Witness for the amended C6 on the weight-5 document. -/
theorem rehydrater_emits_once_witness : [rehydB].length = [docB].length :=
  rehydrater_emits_once [docB] [rehydB] (by rfl)

/-- C7: the smallest threshold of the table is 1 and maps to weight 1; for
every cluster size k ≥ 1 the bisect result keeps the table index in range
and the weight lookup succeeds. -/
theorem rehydrater_weight_total (k : Nat) (hk : 1 ≤ k) :
    limits.head? = some 1 ∧ upsamplingWeights.lookup 1 = some 1 ∧
    1 ≤ bisectRight limits k ∧ bisectRight limits k ≤ limits.length ∧
    (rehydraterWeight? k).isSome = true := by
  have hb := bisectRight_limits k
  have hlen : limits.length = 6 := by rfl
  refine ⟨by rfl, by rfl, ?_, ?_, ?_⟩
  · rw [hb]
    split_ifs <;> omega
  · rw [hb, hlen]
    split_ifs <;> omega
  · rw [rehydraterWeight_eval k]
    rfl

/-- Witness for C7 at cluster size 7. -/
theorem rehydrater_weight_total_witness :
    limits.head? = some 1 ∧ upsamplingWeights.lookup 1 = some 1 ∧
    1 ≤ bisectRight limits 7 ∧ bisectRight limits 7 ≤ limits.length ∧
    (rehydraterWeight? 7).isSome = true :=
  rehydrater_weight_total 7 (by decide)

/-- C9: a cluster size below the smallest threshold (k = 0) does not make
the Rehydrater fail: `bisect_right` returns 0, the index -1 wraps to the
largest threshold 1000, and the document receives that threshold's weight,
namely 1. -/
theorem rehydrater_below_threshold (doc : Doc) (k : Nat) (hsmall : k < 1)
    (hmeta : lookupMeta doc.metadata "minhash_cluster_size" = some (MetaVal.nat k)) :
    bisectRight limits k = 0 ∧
    pyGet limits (-1) = some 1000 ∧
    upsamplingWeights.lookup 1000 = some 1 ∧
    rehydraterWeight? k = some 1 ∧
    ∃ d', rehydraterStep doc = some d' ∧
      lookupMeta d'.metadata "upsampling_weight" = some (MetaVal.nat 1) := by
  have hk0 : k = 0 := by omega
  subst hk0
  exact ⟨by rfl, by rfl, by rfl, by rfl,
    ⟨_, rehydraterStep_eq doc 0 1 hmeta (by rfl), lookupMeta_setMeta_eq _ _ _⟩⟩

/-- Witness for C9 at a document of cluster size 0. -/
theorem rehydrater_below_threshold_witness :
    bisectRight limits 0 = 0 ∧
    pyGet limits (-1) = some 1000 ∧
    upsamplingWeights.lookup 1000 = some 1 ∧
    rehydraterWeight? 0 = some 1 ∧
    ∃ d', rehydraterStep docZ = some d' ∧
      lookupMeta d'.metadata "upsampling_weight" = some (MetaVal.nat 1) :=
  rehydrater_below_threshold docZ 0 (by decide) (by rfl)

/-- A raw record of a WARC input file: either a record the underlying
reader parses into a document, or a malformed record on which it raises. -/
inductive RawRecord
  | ok : Doc → RawRecord
  | malformed : RawRecord
deriving DecidableEq

/-- `EnhancedWarcReader.read_file`: `yield from super().read_file(filepath)`
inside `try`/`except`. Documents are re-yielded until the underlying reader
raises; the caught exception is logged and ends the generator, so every
record of the file after the first malformed one is skipped. -/
def enhancedReadFile : List RawRecord → List Doc
  | [] => []
  | RawRecord.ok d :: rest => d :: enhancedReadFile rest
  | RawRecord.malformed :: _ => []

/-- All well-formed documents of a file, whatever their position. -/
def wellFormedDocs : List RawRecord → List Doc
  | [] => []
  | RawRecord.ok d :: rest => d :: wellFormedDocs rest
  | RawRecord.malformed :: rest => wellFormedDocs rest

/-- Whether the underlying reader parses this record without raising. -/
def isOkRecord : RawRecord → Bool
  | RawRecord.ok _ => true
  | RawRecord.malformed => false

/-- A shard task reads its input files one after the other through
`EnhancedWarcReader.read_file`; an exception swallowed in one file never
stops the remaining files. -/
def readShard : List (List RawRecord) → List Doc
  | [] => []
  | f :: fs => enhancedReadFile f ++ readShard fs

def docC : Doc := ⟨3, "gamma", []⟩

def docD : Doc := ⟨4, "delta", []⟩

/-- C4 counterexample: in a file holding a good document, then a malformed
record, then another good document, the reader emits only the first
document — the well-formed document after the malformed record is lost, so
the malformed record is not merely "skipped". -/
theorem read_file_skips_rest_cex :
    enhancedReadFile [RawRecord.ok docC, RawRecord.malformed, RawRecord.ok docD] = [docC] ∧
    wellFormedDocs [RawRecord.ok docC, RawRecord.malformed, RawRecord.ok docD] = [docC, docD] ∧
    enhancedReadFile [RawRecord.ok docC, RawRecord.malformed, RawRecord.ok docD] ≠
      wellFormedDocs [RawRecord.ok docC, RawRecord.malformed, RawRecord.ok docD] := by
  refine ⟨by rfl, by rfl, by decide⟩

/-- C4 amended: the caught error never aborts the shard — the remaining
files are still read — and the documents before the first malformed record
of a file are emitted, but the rest of that file (including well-formed
documents after the malformed record) is skipped. -/
theorem read_file_prefix_semantics (records : List RawRecord) (fs : List (List RawRecord)) :
    enhancedReadFile records = wellFormedDocs (records.takeWhile isOkRecord) ∧
    readShard (records :: fs) = enhancedReadFile records ++ readShard fs := by
  refine ⟨?_, rfl⟩
  induction records with
  | nil => rfl
  | cons r rest ih =>
    cases r with
    | ok d => simp [enhancedReadFile, wellFormedDocs, List.takeWhile_cons, isOkRecord, ih]
    | malformed => simp [enhancedReadFile, wellFormedDocs, List.takeWhile_cons, isOkRecord]

/-- Modelled from the spec: the `MinhashDedupFilter` step configured in
stage 4 belongs to the external datatrove library and is not among this
repository's sources. Per the spec it re-streams each document and looks
up its id in the persisted id → (cluster_id, cluster_size) mapping: keep
when absent (implicit singleton cluster), keep when the id equals the
cluster's canonical representative id, drop otherwise. -/
def dedupFilterKeep (assign : Nat → Option (Nat × Nat)) (repOf : Nat → Nat) (doc : Doc) : Bool :=
  match assign doc.id with
  | none => true
  | some (cid, _) => doc.id == repOf cid

/-- Modelled from the spec: the cluster size recorded for a document — the
size from the mapping, or 1 for an implicit singleton. -/
def clusterSizeOf (assign : Nat → Option (Nat × Nat)) (i : Nat) : Nat :=
  match assign i with
  | none => 1
  | some (_, sz) => sz

/-- Modelled from the spec: a kept document carries its cluster size as
`minhash_cluster_size` (1 for an implicit singleton) for the Rehydrater. -/
def dedupFilterAnnotate (assign : Nat → Option (Nat × Nat)) (doc : Doc) : Doc :=
  { doc with metadata := setMeta doc.metadata "minhash_cluster_size" (MetaVal.nat (clusterSizeOf assign doc.id)) }

/-- Modelled from the spec: the filter routes every re-streamed document
either to the surviving stream (first component) or to the exclusion sink
(second component). -/
def dedupFilterRun (assign : Nat → Option (Nat × Nat)) (repOf : Nat → Nat) :
    List Doc → List Doc × List Doc
  | [] => ([], [])
  | d :: ds =>
      let r := dedupFilterRun assign repOf ds
      if dedupFilterKeep assign repOf d then (dedupFilterAnnotate assign d :: r.1, r.2)
      else (r.1, d :: r.2)

/-- C2: a re-streamed document with no cluster assignment is kept as a
singleton of size 1; one with an assignment is kept iff its id equals the
cluster's canonical representative id, and is otherwise routed to the
exclusion sink. -/
theorem dedup_filter_keep_rule (assign : Nat → Option (Nat × Nat)) (repOf : Nat → Nat)
    (docs : List Doc) (doc : Doc) (hmem : doc ∈ docs) :
    (assign doc.id = none →
      dedupFilterAnnotate assign doc ∈ (dedupFilterRun assign repOf docs).1 ∧
      lookupMeta (dedupFilterAnnotate assign doc).metadata "minhash_cluster_size" =
        some (MetaVal.nat 1)) ∧
    (∀ cid sz, assign doc.id = some (cid, sz) →
      (doc.id = repOf cid →
        dedupFilterAnnotate assign doc ∈ (dedupFilterRun assign repOf docs).1) ∧
      (doc.id ≠ repOf cid → doc ∈ (dedupFilterRun assign repOf docs).2)) := by
  induction docs with
  | nil => cases hmem
  | cons d ds ih =>
    rcases List.mem_cons.mp hmem with rfl | hmem'
    · constructor
      · intro hnone
        have hkeep : dedupFilterKeep assign repOf doc = true := by
          simp [dedupFilterKeep, hnone]
        constructor
        · simp [dedupFilterRun, hkeep]
        · simp [dedupFilterAnnotate, clusterSizeOf, hnone, lookupMeta_setMeta_eq]
      · intro cid sz hsome
        constructor
        · intro hrep
          have hkeep : dedupFilterKeep assign repOf doc = true := by
            unfold dedupFilterKeep
            rw [hsome]
            simp only [beq_iff_eq]
            exact hrep
          simp [dedupFilterRun, hkeep]
        · intro hrep
          have hkeep : dedupFilterKeep assign repOf doc = false := by
            unfold dedupFilterKeep
            rw [hsome]
            simp only [beq_eq_false_iff_ne, ne_eq]
            exact hrep
          simp [dedupFilterRun, hkeep]
    · obtain ⟨ih1, ih2⟩ := ih hmem'
      constructor
      · intro hnone
        obtain ⟨hmem1, hmeta⟩ := ih1 hnone
        refine ⟨?_, hmeta⟩
        by_cases hk : dedupFilterKeep assign repOf d = true <;>
          simp [dedupFilterRun, hk, hmem1]
      · intro cid sz hsome
        obtain ⟨hkeep', hdrop'⟩ := ih2 cid sz hsome
        constructor
        · intro hrep
          by_cases hk : dedupFilterKeep assign repOf d = true <;>
            simp [dedupFilterRun, hk, hkeep' hrep]
        · intro hrep
          by_cases hk : dedupFilterKeep assign repOf d = true <;>
            simp [dedupFilterRun, hk, hdrop' hrep]

/-- A concrete cluster mapping: id 1 unassigned, every other id in cluster
10 of size 2. -/
def assignW : Nat → Option (Nat × Nat) := fun i => if i = 1 then none else some (10, 2)

/-- A concrete canonical-representative choice: cluster 10 is represented
by id 3. -/
def repOfW : Nat → Nat := fun _ => 3

/-- Witness for C2: `docA` (id 1) has no assignment and survives as a
singleton of size 1 in the stream `[docA, docC]`. -/
theorem dedup_filter_keep_rule_witness :
    (assignW docA.id = none →
      dedupFilterAnnotate assignW docA ∈ (dedupFilterRun assignW repOfW [docA, docC]).1 ∧
      lookupMeta (dedupFilterAnnotate assignW docA).metadata "minhash_cluster_size" =
        some (MetaVal.nat 1)) ∧
    (∀ cid sz, assignW docA.id = some (cid, sz) →
      (docA.id = repOfW cid →
        dedupFilterAnnotate assignW docA ∈ (dedupFilterRun assignW repOfW [docA, docC]).1) ∧
      (docA.id ≠ repOfW cid → docA ∈ (dedupFilterRun assignW repOfW [docA, docC]).2)) :=
  dedup_filter_keep_rule assignW repOfW [docA, docC] docA (by decide)

/-- The five `SlurmPipelineExecutor`s created by `run_full_pipeline`. -/
inductive Stage
  | scrapeFilter
  | signatures
  | buckets
  | clusters
  | filterRehydrate
deriving DecidableEq

/-- The pipeline step classes appearing in the executors' `pipeline` lists. -/
inductive StepName
  | enhancedWarcReader
  | urlFilter
  | lambdaFilter
  | trafilaturaMetadata
  | postScraper
  | languageFilter
  | gopherRepetitionFilter
  | fineWebQualityFilter
  | gopherQualityFilter
  | ftfyFormatter
  | piiFormatter
  | symbolLinesFormatter
  | tokensCounter
  | jsonlWriter
  | jsonlReader
  | minhashSig
  | minhashBuckets
  | minhashCluster
  | minhashFilter
  | rehydrater
deriving DecidableEq

/-- The `pipeline=[...]` list of each executor in `run_full_pipeline`, in
source order. -/
def stagePipeline : Stage → List StepName
  | Stage.scrapeFilter =>
      [StepName.enhancedWarcReader, StepName.urlFilter, StepName.lambdaFilter,
       StepName.trafilaturaMetadata, StepName.postScraper, StepName.languageFilter,
       StepName.gopherRepetitionFilter, StepName.fineWebQualityFilter,
       StepName.gopherQualityFilter, StepName.ftfyFormatter, StepName.piiFormatter,
       StepName.postScraper, StepName.symbolLinesFormatter, StepName.tokensCounter,
       StepName.jsonlWriter]
  | Stage.signatures => [StepName.jsonlReader, StepName.minhashSig]
  | Stage.buckets => [StepName.minhashBuckets]
  | Stage.clusters => [StepName.minhashCluster]
  | Stage.filterRehydrate =>
      [StepName.jsonlReader, StepName.minhashFilter, StepName.rehydrater,
       StepName.tokensCounter, StepName.jsonlWriter]

/-- The `depends=` argument of each executor in `run_full_pipeline`. -/
def stageDepends : Stage → Option Stage
  | Stage.scrapeFilter => none
  | Stage.signatures => some Stage.scrapeFilter
  | Stage.buckets => some Stage.signatures
  | Stage.clusters => some Stage.buckets
  | Stage.filterRehydrate => some Stage.clusters

/-- A run of the stage graph as the external scheduler sees it: which
stages were launched and which completed with full success. -/
structure Schedule where
  started : Stage → Bool
  succeeded : Stage → Bool

/-- Modelled from the spec: the barrier semantics of
`SlurmPipelineExecutor`'s `depends` chaining, which is implemented by the
external datatrove/Slurm machinery — a stage succeeds only if it was
launched, and a stage is launched only after the stage its `depends`
argument names has fully succeeded. -/
def Schedule.valid (s : Schedule) : Prop :=
  (∀ st, s.succeeded st = true → s.started st = true) ∧
  (∀ st d, stageDepends st = some d → s.started st = true → s.succeeded d = true)

/-- The barrier and blocking guarantees of the dedup stage chain. -/
def BarrierProps (s : Schedule) : Prop :=
  (s.started Stage.signatures = true → s.succeeded Stage.scrapeFilter = true) ∧
  (s.started Stage.buckets = true → s.succeeded Stage.signatures = true) ∧
  (s.started Stage.clusters = true → s.succeeded Stage.buckets = true) ∧
  (s.started Stage.filterRehydrate = true →
    s.succeeded Stage.clusters = true ∧ s.succeeded Stage.buckets = true ∧
    s.succeeded Stage.signatures = true ∧ s.succeeded Stage.scrapeFilter = true) ∧
  (s.succeeded Stage.signatures = false →
    s.started Stage.buckets = false ∧ s.started Stage.clusters = false ∧
    s.started Stage.filterRehydrate = false) ∧
  (s.succeeded Stage.buckets = false →
    s.started Stage.clusters = false ∧ s.started Stage.filterRehydrate = false) ∧
  (s.succeeded Stage.clusters = false → s.started Stage.filterRehydrate = false)

/-- C8 counterexample: the code has no five-stage barrier chain ending in
Filter → Rehydrate. The `Rehydrater` is not a stage of its own: it occurs
only inside the final executor, immediately after `MinhashDedupFilter` in
the same streaming `pipeline` list, so no barrier separates the filter from
the rehydration. -/
theorem filter_rehydrate_same_stage_cex :
    stagePipeline Stage.filterRehydrate =
      [StepName.jsonlReader, StepName.minhashFilter, StepName.rehydrater,
       StepName.tokensCounter, StepName.jsonlWriter] ∧
    StepName.minhashFilter ∈ stagePipeline Stage.filterRehydrate ∧
    StepName.rehydrater ∈ stagePipeline Stage.filterRehydrate ∧
    (∀ st : Stage, StepName.rehydrater ∈ stagePipeline st → st = Stage.filterRehydrate) := by
  refine ⟨by rfl, by decide, by decide, ?_⟩
  intro st
  cases st <;> decide

/-- C8 amended: the dedup executors form the strict dependency chain
Sign → Match → Cluster → Filter+Rehydrate, each transition gated on full
success of the prior stage, and a failed stage blocks every downstream
stage; Filter and Rehydrate, however, run inside the same final stage with
no barrier between them. -/
theorem dedup_stage_barriers (s : Schedule) (hv : Schedule.valid s) : BarrierProps s := by
  obtain ⟨hsu, hdep⟩ := hv
  have hsig : s.started Stage.signatures = true → s.succeeded Stage.scrapeFilter = true :=
    fun h => hdep Stage.signatures Stage.scrapeFilter rfl h
  have hbuck : s.started Stage.buckets = true → s.succeeded Stage.signatures = true :=
    fun h => hdep Stage.buckets Stage.signatures rfl h
  have hclus : s.started Stage.clusters = true → s.succeeded Stage.buckets = true :=
    fun h => hdep Stage.clusters Stage.buckets rfl h
  have hfr : s.started Stage.filterRehydrate = true → s.succeeded Stage.clusters = true :=
    fun h => hdep Stage.filterRehydrate Stage.clusters rfl h
  refine ⟨hsig, hbuck, hclus, ?_, ?_, ?_, ?_⟩
  · intro h
    have h1 := hfr h
    have h2 := hclus (hsu _ h1)
    have h3 := hbuck (hsu _ h2)
    have h4 := hsig (hsu _ h3)
    exact ⟨h1, h2, h3, h4⟩
  · intro h
    refine ⟨?_, ?_, ?_⟩
    · cases hx : s.started Stage.buckets with
      | false => rfl
      | true =>
        rw [hbuck hx] at h
        exact Bool.noConfusion h
    · cases hx : s.started Stage.clusters with
      | false => rfl
      | true =>
        rw [hbuck (hsu _ (hclus hx))] at h
        exact Bool.noConfusion h
    · cases hx : s.started Stage.filterRehydrate with
      | false => rfl
      | true =>
        rw [hbuck (hsu _ (hclus (hsu _ (hfr hx))))] at h
        exact Bool.noConfusion h
  · intro h
    refine ⟨?_, ?_⟩
    · cases hx : s.started Stage.clusters with
      | false => rfl
      | true =>
        rw [hclus hx] at h
        exact Bool.noConfusion h
    · cases hx : s.started Stage.filterRehydrate with
      | false => rfl
      | true =>
        rw [hclus (hsu _ (hfr hx))] at h
        exact Bool.noConfusion h
  · intro h
    cases hx : s.started Stage.filterRehydrate with
    | false => rfl
    | true =>
      rw [hfr hx] at h
      exact Bool.noConfusion h

/-- A run in which every stage was launched and fully succeeded. -/
def schedAll : Schedule := ⟨fun _ => true, fun _ => true⟩

/-- Witness for the amended C8 on the all-successful run. -/
theorem dedup_stage_barriers_witness : BarrierProps schedAll :=
  dedup_stage_barriers schedAll ⟨fun _ _ => rfl, fun _ _ _ _ => rfl⟩

/-- `dedup_tasks = num_tasks//5` of `run_full_pipeline`. -/
def dedupTasks (numTasks : Nat) : Nat := numTasks / 5

/-- `minhash_config.num_buckets`. -/
def minhashNumBuckets : Nat := 14

/-- The `tasks=` argument of each executor in `run_full_pipeline`. -/
def stageTasks : Stage → Nat → Nat
  | Stage.scrapeFilter, numTasks => numTasks
  | Stage.signatures, numTasks => dedupTasks numTasks
  | Stage.buckets, _ => minhashNumBuckets
  | Stage.clusters, _ => 1
  | Stage.filterRehydrate, numTasks => dedupTasks numTasks

/-- C10 counterexample: not all four dedup stages use `dedup_tasks`; at
`num_tasks = 10` the bucket stage runs 14 tasks and the cluster stage 1,
neither equal to `10 // 5 = 2`, and at `num_tasks = 4` neither of them is
configured with zero tasks. -/
theorem dedup_tasks_cex :
    dedupTasks 10 = 2 ∧ stageTasks Stage.buckets 10 = 14 ∧
    stageTasks Stage.buckets 10 ≠ dedupTasks 10 ∧
    stageTasks Stage.clusters 10 = 1 ∧ stageTasks Stage.clusters 10 ≠ dedupTasks 10 ∧
    stageTasks Stage.buckets 4 ≠ 0 ∧ stageTasks Stage.clusters 4 ≠ 0 := by
  decide

/-- C10 amended: only the signature stage and the filter/rehydrate stage
are configured with `dedup_tasks = num_tasks // 5` tasks — the bucket
stage uses `num_buckets = 14` and the cluster stage uses 1 — so for
`num_tasks` below 5 exactly those two stages get zero tasks. -/
theorem dedup_tasks_config (numTasks : Nat) (h : numTasks < 5) :
    stageTasks Stage.signatures numTasks = numTasks / 5 ∧
    stageTasks Stage.filterRehydrate numTasks = numTasks / 5 ∧
    stageTasks Stage.signatures numTasks = 0 ∧
    stageTasks Stage.filterRehydrate numTasks = 0 ∧
    stageTasks Stage.buckets numTasks = 14 ∧
    stageTasks Stage.clusters numTasks = 1 := by
  have h0 : numTasks / 5 = 0 := Nat.div_eq_of_lt h
  exact ⟨rfl, rfl, h0, h0, rfl, rfl⟩

/-- Witness for the amended C10 at `num_tasks = 4`. -/
theorem dedup_tasks_config_witness :
    stageTasks Stage.signatures 4 = 4 / 5 ∧
    stageTasks Stage.filterRehydrate 4 = 4 / 5 ∧
    stageTasks Stage.signatures 4 = 0 ∧
    stageTasks Stage.filterRehydrate 4 = 0 ∧
    stageTasks Stage.buckets 4 = 14 ∧
    stageTasks Stage.clusters 4 = 1 :=
  dedup_tasks_config 4 (by decide)
